import Mathlib

/-!
Shallow embedding of the `arena` crate (`src/lib.rs`): a stable-handle
contiguous container ("slot arena").  The Rust code is translated
function-by-function:

* `Vec<T>` becomes `List T`; `usize`/`u64` become `Nat` (the only places the
  source relies on wrapping `usize` arithmetic, `Arena::quicksort`'s
  `wrapping_add`/`wrapping_sub`, are modelled with explicit `% 2 ^ 64`);
* every operation that can panic (an out-of-bounds `self.slots[i]` /
  `self.values[i]` index, an `assert!`, an `unreachable!()`, or a `usize`
  subtraction underflow) returns `Option`, where `none` is the panic and
  `some r` is a normal return with result `r`.  Soft "not found" results keep
  their own `Option` inside, so e.g. `get` returns `Option (Option T)`:
  `some (some v)` = `Some(&v)`, `some none` = `None`, `none` = panic;
* the `uuid` and `serde` cargo features are modelled where a claim needs them
  (the instance discriminator as a `Nat` field, the serialized form as a pair
  of the generation counter and the entry list).
-/

namespace ArenaModel

/-- The wrap modulus of `usize` arithmetic (the source is a 64-bit build). -/
def usizeMod : Nat := 2 ^ 64

/-- Rust `ArenaId<T>` without the optional `uuid` feature: a generation tag
`uid` (`u64`) and a slot index `idx` (`usize`).  The `PhantomData` type tag
carries no data and is dropped. -/
structure ArenaId where
  uid : Nat
  idx : Nat
deriving DecidableEq, Repr

/-- Rust `enum State`: a slot is either `Used { uid, value }` (occupied, with
generation tag and forward pointer to the value's current position) or
`Free { next_free }` (a free-list link). -/
inductive State where
  | used (uid : Nat) (value : Nat)
  | free (next_free : Option Nat)
deriving DecidableEq, Repr

/-- Rust `struct Slot { value_slot, state }`: `value_slot` is the
position-indexed back-pointer, `state` the slot-indexed occupancy state. -/
structure Slot where
  value_slot : Nat
  state : State
deriving DecidableEq, Repr

/-- Rust `struct Arena<T>` without the optional `uuid` field. -/
structure Arena (T : Type) where
  values : List T
  slots : List Slot
  next_uid : Nat
  first_free : Option Nat
deriving DecidableEq, Repr

/-- Rust `Arena::new()`. -/
def new (T : Type) : Arena T :=
  { values := [], slots := [], next_uid := 1, first_free := none }

/-- Rust `Arena::len()` (provided through `Deref` to the value slice). -/
def len (a : Arena T) : Nat := a.values.length

/-- Rust `Arena::slot_count()`. -/
def slot_count (a : Arena T) : Nat := a.slots.length

/-- Rust `Arena::free_slot_count()` (`usize` subtraction; in every reachable
state `len ≤ slot_count`, and `Nat` subtraction agrees there). -/
def free_slot_count (a : Arena T) : Nat := slot_count a - len a

/-- Rust `Arena::as_slice()`. -/
def as_slice (a : Arena T) : List T := a.values

/-- Rust `Arena::get`.  `self.slots.get(id.idx)?` is the checked lookup; the
final `self.values[*value]` is a direct index whose out-of-bounds panic is the
outer `none`. -/
def get (a : Arena T) (id : ArenaId) : Option (Option T) :=
  match a.slots[id.idx]? with
  | none => some none
  | some s =>
    match s.state with
    | .used uid value =>
      if uid = id.uid then
        match a.values[value]? with
        | some v => some (some v)
        | none => none
      else some none
    | .free _ => some none

/-- Rust `Arena::get_mut`.  Its lookup path is identical to `get`; the model
returns the value the mutable reference would point at. -/
def get_mut (a : Arena T) (id : ArenaId) : Option (Option T) :=
  match a.slots[id.idx]? with
  | none => some none
  | some s =>
    match s.state with
    | .used uid value =>
      if uid = id.uid then
        match a.values[value]? with
        | some v => some (some v)
        | none => none
      else some none
    | .free _ => some none

/-- Rust `Arena::contains`: `self.get(id).is_some()`. -/
def contains (a : Arena T) (id : ArenaId) : Option Bool :=
  (get a id).map Option.isSome

/-- Rust `Arena::index_of`. -/
def index_of (a : Arena T) (id : ArenaId) : Option Nat :=
  match a.slots[id.idx]? with
  | none => none
  | some s =>
    match s.state with
    | .used uid value => if uid = id.uid then some value else none
    | .free _ => none

/-- Rust `Arena::id_at`.  The back-pointer `self.slots.get(index)?.value_slot`
is checked, the second lookup `self.slots[idx]` is a direct (panicking)
index. -/
def id_at (a : Arena T) (index : Nat) : Option (Option ArenaId) :=
  if index ≥ len a then
    some none
  else
    match a.slots[index]? with
    | none => some none
    | some s =>
      match a.slots[s.value_slot]? with
      | none => none
      | some s2 =>
        match s2.state with
        | .used uid value =>
          if value = index then some (some { uid := uid, idx := s.value_slot })
          else some none
        | .free _ => some none

/-- Rust `Arena::insert_with`.  Translated line by line: take the free-list
head (or push a new slot), stamp `Used { uid: next_uid, value }`, write the
back-pointer `self.slots[value].value_slot = idx` (a direct index), build the
id, bump `next_uid`, push `create(id)`.  The `unreachable!()` on a corrupt
free-list head and the direct indexing panics are `none`. -/
def insert_with (a : Arena T) (create : ArenaId → T) : Option (ArenaId × Arena T) :=
  let value := a.values.length
  match a.first_free with
  | some idx =>
    match a.slots[idx]? with
    | none => none
    | some s =>
      match s.state with
      | .used _ _ => none
      | .free next_free =>
        let slots1 := a.slots.set idx { s with state := .used a.next_uid value }
        match slots1[value]? with
        | none => none
        | some sv =>
          let slots2 := slots1.set value { sv with value_slot := idx }
          let id : ArenaId := { uid := a.next_uid, idx := idx }
          some (id, { values := a.values ++ [create id]
                      slots := slots2
                      next_uid := a.next_uid + 1
                      first_free := next_free })
  | none =>
    let idx := a.slots.length
    let slots1 := a.slots ++ [{ value_slot := 0, state := .used a.next_uid value }]
    match slots1[value]? with
    | none => none
    | some sv =>
      let slots2 := slots1.set value { sv with value_slot := idx }
      let id : ArenaId := { uid := a.next_uid, idx := idx }
      some (id, { values := a.values ++ [create id]
                  slots := slots2
                  next_uid := a.next_uid + 1
                  first_free := none })

/-- Rust `Arena::insert`: `self.insert_with(|_| value)`. -/
def insert (a : Arena T) (v : T) : Option (ArenaId × Arena T) :=
  insert_with a (fun _ => v)

/-- Rust `Arena::pop`.  `self.values.pop()?` is the soft empty case; the two
direct slot indexes can panic.  `first_free.replace(slot)` makes the old head
the new link and the freed slot the new head. -/
def pop (a : Arena T) : Option (Option T × Arena T) :=
  match a.values.getLast? with
  | none => some (none, a)
  | some v =>
    let values1 := a.values.dropLast
    match a.slots[values1.length]? with
    | none => none
    | some s =>
      let slot := s.value_slot
      match a.slots[slot]? with
      | none => none
      | some s2 =>
        some (some v,
          { a with
            values := values1
            slots := a.slots.set slot { s2 with state := .free a.first_free }
            first_free := some slot })

/-- Rust `Vec::swap_remove(i)`: return element `i`, move the last element into
its place, shrink by one; panic (`none`) if `i` is out of bounds. -/
def swapRemove (l : List α) (i : Nat) : Option (α × List α) :=
  match l[i]?, l.getLast? with
  | some x, some lastv => some (x, (l.set i lastv).dropLast)
  | _, _ => none

/-- Rust `Arena::remove`.  `self.slots[id.idx]` is a direct (panicking) index;
a generation mismatch or free slot is the soft `some (none, a)`.  On success
the slot is freed first, then either the last value is relocated into the
freed position or (when the removed value is last) `self.pop()` runs.  The
`self.values.len() - 1` is a `usize` subtraction that underflows (panics in a
debug build) on an empty value store. -/
def remove (a : Arena T) (id : ArenaId) : Option (Option T × Arena T) :=
  match a.slots[id.idx]? with
  | none => none
  | some s =>
    match s.state with
    | .free _ => some (none, a)
    | .used uid value =>
      if uid = id.uid then
        let removed_val := value
        let slots1 := a.slots.set id.idx { s with state := .free a.first_free }
        let a1 : Arena T := { a with slots := slots1, first_free := some id.idx }
        if a.values.length = 0 then none
        else
          let last_val := a.values.length - 1
          if removed_val < last_val then
            match slots1[last_val]? with
            | none => none
            | some sl =>
              let last_slot := sl.value_slot
              match slots1[removed_val]? with
              | none => none
              | some sr =>
                let slots2 := slots1.set removed_val { sr with value_slot := last_slot }
                match slots2[last_slot]? with
                | none => none
                | some sls =>
                  match sls.state with
                  | .free _ => none
                  | .used uid2 _ =>
                    let slots3 := slots2.set last_slot { sls with state := .used uid2 removed_val }
                    match swapRemove a.values removed_val with
                    | none => none
                    | some (v, values1) =>
                      some (some v, { a1 with slots := slots3, values := values1 })
          else
            pop a1
      else some (none, a)

/-- Rust `Arena::remove_at`: `self.remove(self.id_at(index)?)`. -/
def remove_at (a : Arena T) (index : Nat) : Option (Option T × Arena T) :=
  match id_at a index with
  | none => none
  | some none => some (none, a)
  | some (some id) => remove a id

/-- Body of the `else` branch of Rust `Arena::clear_opt`: for each position
`i` in `0..values.len()`, read the back-pointer `slots[i].value_slot` and push
that slot onto the free list (both direct, panicking indexes).  The first
argument is a structural-recursion budget for the `for` loop; the caller
passes one more than the loop's trip count `n`, so it never runs out. -/
def clearLoop : Nat → List Slot → Option Nat → Nat → Nat →
    Option (List Slot × Option Nat)
  | 0, _, _, _, _ => none
  | fuel + 1, slots, ff, i, n =>
    if i < n then
      match slots[i]? with
      | none => none
      | some s =>
        match slots[s.value_slot]? with
        | none => none
        | some s2 =>
          clearLoop fuel (slots.set s.value_slot { s2 with state := .free ff })
            (some s.value_slot) (i + 1) n
    else some (slots, ff)

/-- Rust `Arena::clear_opt`. -/
def clear_opt (a : Arena T) (clear_slots : Bool) : Option (Arena T) :=
  if clear_slots then
    some { a with values := [], slots := [], first_free := none }
  else
    match clearLoop (a.values.length + 1) a.slots a.first_free 0 a.values.length with
    | none => none
    | some (slots, ff) => some { a with values := [], slots := slots, first_free := ff }

/-- Rust `Arena::clear`. -/
def clear (a : Arena T) : Option (Arena T) := clear_opt a false

/-- Rust `Arena::clear_all`. -/
def clear_all (a : Arena T) : Option (Arena T) := clear_opt a true

/-- Rust `Vec::swap` restricted to the in-bounds use inside `Arena::swap`
(the arena's own `assert!`s have already ruled the indexes in bounds). -/
def listSwap (l : List α) (i j : Nat) : List α :=
  match l[i]?, l[j]? with
  | some x, some y => (l.set i y).set j x
  | _, _ => l

/-- Rust `Arena::swap`.  The two `assert!`s are panics (`none`) when an index
is not below `len`; `i == j` is a no-op.  Otherwise the values are swapped and
the two slots read from the back-pointers at `i` and `j` are rewritten in
sequence, exactly as in the source (the second `match` sees the first one's
writes). -/
def swap (a : Arena T) (i j : Nat) : Option (Arena T) :=
  if i ≥ a.values.length then none
  else if j ≥ a.values.length then none
  else if i = j then some a
  else
    let values1 := listSwap a.values i j
    match a.slots[i]?, a.slots[j]? with
    | some si, some sj =>
      let slot_i := si.value_slot
      let slot_j := sj.value_slot
      match a.slots[slot_i]? with
      | none => none
      | some s1 =>
        match s1.state with
        | .free _ => none
        | .used uid_i _ =>
          let slots1 := a.slots.set slot_i { value_slot := slot_j, state := .used uid_i j }
          match slots1[slot_j]? with
          | none => none
          | some s2 =>
            match s2.state with
            | .free _ => none
            | .used uid_j _ =>
              let slots2 := slots1.set slot_j { value_slot := slot_i, state := .used uid_j i }
              some { a with values := values1, slots := slots2 }
    | _, _ => none

/-- Rust `Arena::swap_positions`: resolve both ids through `index_of`, then
delegate to `swap` and return `true`; return `false` (no mutation) when either
id fails to resolve. -/
def swap_positions (a : Arena T) (i j : ArenaId) : Option (Bool × Arena T) :=
  match index_of a i with
  | some pi =>
    match index_of a j with
    | some pj => (swap a pi pj).map (fun a' => (true, a'))
    | none => some (false, a)
  | none => some (false, a)

/-- The partition loop inside Rust `Arena::quicksort`:
`while i <= high { if compare(v[i], v[high]) == Greater { i += 1 } else { swap(i, j); i += 1; j += 1 } }`,
returning the final `j`.  The direct value indexes and the inner `swap` can
panic.  The first `Nat` is a structural-recursion budget for the `while`
loop, which runs `high + 1 - i` times since `i` increments every iteration;
the caller passes one more than that, so the budget never runs out. -/
def partLoop (cmp : T → T → Ordering) (high : Nat) : Nat → Arena T → Nat → Nat →
    Option (Arena T × Nat)
  | 0, _, _, _ => none
  | fuel + 1, a, i, j =>
    if i ≤ high then
      match a.values[i]?, a.values[high]? with
      | some vi, some vh =>
        if cmp vi vh = .gt then
          partLoop cmp high fuel a (i + 1) j
        else
          match swap a i j with
          | none => none
          | some a' => partLoop cmp high fuel a' (i + 1) (j + 1)
      | _, _ => none
    else some (a, j)

/-- Rust `Arena::quicksort`.  The guard `low + 1 >= high.wrapping_add(1)` and
the recursive call on `p.wrapping_sub(1)` use wrapping `usize` arithmetic,
modelled with `% usizeMod`; the `j - 1` after the partition is a plain `usize`
subtraction whose underflow (possible only for a comparator that is not a
strict weak order) is a panic.  The recursion of the source is unbounded; the
model carries a fuel bounding the recursion depth, and `none` covers running
out of fuel as well as panics.  For any execution of the source that
terminates normally the depth is at most the interval width, so the fuel
passed by `sort_by` below reproduces it. -/
def quicksort (cmp : T → T → Ordering) : Nat → Arena T → Nat → Nat → Option (Arena T)
  | 0, _, _, _ => none
  | fuel + 1, a, low, high =>
    if low + 1 ≥ (high + 1) % usizeMod then some a
    else
      match partLoop cmp high (high + 2 - low) a low low with
      | none => none
      | some (a', j) =>
        if j = 0 then none
        else
          let p := j - 1
          match quicksort cmp fuel a' low ((p + (usizeMod - 1)) % usizeMod) with
          | none => none
          | some a'' => quicksort cmp fuel a'' (p + 1) high

/-- Rust `Arena::sort_by`: `if self.len() > 1 { self.quicksort(0, self.len() - 1, compare) }`.
The fuel `len + 1` bounds the recursion depth, which shrinks with the interval
width. -/
def sort_by (a : Arena T) (cmp : T → T → Ordering) : Option (Arena T) :=
  if a.values.length > 1 then
    quicksort cmp (a.values.length + 1) a 0 (a.values.length - 1)
  else some a

/-- Rust `Arena::sort` for `T = Nat` values: `self.sort_by(|a, b| a.cmp(b))`. -/
def sortNat (a : Arena Nat) : Option (Arena Nat) :=
  sort_by a compare

/-- Rust `Arena::get2_mut`.  Both ids are resolved with `index_of`;
`assert_ne!(a, b)` panics when the positions coincide;
`split_at_mut(a.max(b))` panics when the split point exceeds the length;
then the source returns `(&mut lower[a], &mut upper[0])` when `a < b` and
`(&mut lower[0], &mut upper[b])` otherwise, where `lower` has length
`a.max(b)` and `upper` starts at `a.max(b)`.  The model returns the values
the two references point at. -/
def get2_mut (arena : Arena T) (a b : ArenaId) : Option (Option T × Option T) :=
  match index_of arena a, index_of arena b with
  | some pa, some pb =>
    if pa = pb then none
    else
      let m := max pa pb
      if m > arena.values.length then none
      else
        let lower := arena.values.take m
        let upper := arena.values.drop m
        if pa < pb then
          match lower[pa]?, upper[0]? with
          | some x, some y => some (some x, some y)
          | _, _ => none
        else
          match lower[0]?, upper[pb]? with
          | some x, some y => some (some x, some y)
          | _, _ => none
  | some pa, none =>
    match arena.values[pa]? with
    | some x => some (some x, none)
    | none => none
  | none, some pb =>
    match arena.values[pb]? with
    | some y => some (none, some y)
    | none => none
  | none, none => some (none, none)

/-- Rust `Ids::next`, iterated to a list: `ids()` walks the first `len` slots
(`self.slots[..self.len()]`), and `next` yields `ArenaId { uid, idx }` for a
`Used` slot but returns `None` — ending the iteration — at the first `Free`
slot.  `k` is the running enumeration index. -/
def idsAux : List Slot → Nat → List ArenaId
  | [], _ => []
  | s :: rest, k =>
    match s.state with
    | .used uid _ => { uid := uid, idx := k } :: idsAux rest (k + 1)
    | .free _ => []

/-- The list of ids yielded by Rust `Arena::ids()` when the iterator is run to
completion. -/
def idsList (a : Arena T) : List ArenaId :=
  idsAux (a.slots.take a.values.length) 0

/-- Rust `Pairs::next`, iterated to a list: for each position `k` (walking the
enumerated value slice), dereference the back-pointer `slots[k].value_slot`
and yield `(ArenaId { uid, idx }, value)`; a `Free` owner slot is the
`unreachable!()` panic (`none`), as are the two direct slot indexes. -/
def pairsAux (slots : List Slot) : List T → Nat → Option (List (ArenaId × T))
  | [], _ => some []
  | v :: rest, k =>
    match slots[k]? with
    | none => none
    | some s =>
      match slots[s.value_slot]? with
      | none => none
      | some s2 =>
        match s2.state with
        | .free _ => none
        | .used uid _ =>
          match pairsAux slots rest (k + 1) with
          | none => none
          | some tail => some (({ uid := uid, idx := s.value_slot }, v) :: tail)

/-- The list of pairs yielded by Rust `Arena::pairs()`. -/
def pairsList (a : Arena T) : Option (List (ArenaId × T)) :=
  pairsAux a.slots a.values 0

/-! The `serde` feature (module `ser` of the source): the serialized form of
an arena is its `next_uid` together with the list of `(uid, idx, val)`
entries produced by `pairs()`. -/

/-- One serialized entry, Rust `Entry`/`DeEntry { uid, idx, val }`. -/
structure SerEntry (T : Type) where
  uid : Nat
  idx : Nat
  val : T
deriving DecidableEq, Repr

/-- The serialized form of an arena, Rust `DeArena { next_uid, entries }`. -/
structure SerArena (T : Type) where
  next_uid : Nat
  entries : List (SerEntry T)
deriving DecidableEq, Repr

/-- Rust `impl Serialize for Arena`: `next_uid` plus one entry per
`pairs()` item.  The `unreachable!()` inside `Pairs::next` is the `none`. -/
def serialize (a : Arena T) : Option (SerArena T) :=
  (pairsList a).map fun ps =>
    { next_uid := a.next_uid
      entries := ps.map fun p => { uid := p.1.uid, idx := p.1.idx, val := p.2 } }

/-- Stable insertion of an entry into a list sorted by `idx`, placing it after
existing equal keys; `sortEntries` below models the stable
`entries.sort_by(|a, b| a.idx.cmp(&b.idx))` of the source. -/
def insertEntry (e : SerEntry T) : List (SerEntry T) → List (SerEntry T)
  | [] => [e]
  | x :: xs => if x.idx ≤ e.idx then x :: insertEntry e xs else e :: x :: xs

/-- Stable sort of the entry list by `idx` (insertion sort). -/
def sortEntries : List (SerEntry T) → List (SerEntry T)
  | [] => []
  | e :: es => insertEntry e (sortEntries es)

/-- The `while slots.len() < e.idx` loop of Rust `Deserialize for Arena`:
push free slots (threaded onto the free list) until the table reaches the
entry's index, taking each pushed slot's `value_slot` from
`de.entries[next_value_slot].idx` — a direct index into the entry list whose
out-of-bounds panic is the `none`. -/
def deWhile (entries : List (SerEntry T)) (targetIdx : Nat) : Nat → List Slot →
    Nat → Option Nat → Option (List Slot × Nat × Option Nat)
  | 0, _, _, _ => none
  | fuel + 1, slots, nvs, ff =>
    if slots.length < targetIdx then
      match entries[nvs]? with
      | none => none
      | some e =>
        deWhile entries targetIdx fuel
          (slots ++ [{ value_slot := e.idx, state := .free ff }])
          (nvs + 1) (some slots.length)
    else some (slots, nvs, ff)

/-- The `for e in &de.entries` loop of Rust `Deserialize for Arena`:
run the gap-filling `while`, then push the `Used` slot for the entry, again
reading `de.entries[next_value_slot].idx` with a direct (panicking) index. -/
def deLoop (entries : List (SerEntry T)) :
    List (SerEntry T) → List Slot → Nat → Nat → Option Nat →
    Option (List Slot × Option Nat)
  | [], slots, _, _, ff => some (slots, ff)
  | e :: rest, slots, nvs, next_value, ff =>
    match deWhile entries e.idx (e.idx + 1) slots nvs ff with
    | none => none
    | some (slots1, nvs1, ff1) =>
      match entries[nvs1]? with
      | none => none
      | some e2 =>
        deLoop entries rest
          (slots1 ++ [{ value_slot := e2.idx, state := .used e.uid next_value }])
          (nvs1 + 1) (next_value + 1) ff1

/-- Rust `impl Deserialize for Arena`: sort the entries by `idx`, rebuild the
slot table with the two loops above, collect the values in entry order. -/
def deserialize (d : SerArena T) : Option (Arena T) :=
  let entries := sortEntries d.entries
  match deLoop entries entries [] 0 0 none with
  | none => none
  | some (slots, ff) =>
    some { values := entries.map (·.val)
           slots := slots
           next_uid := d.next_uid
           first_free := ff }

/-! The `uuid` feature: each arena carries a random 128-bit discriminator
stamped at construction, each handle embeds it, and validation first compares
them (`match_id`).  The discriminator value is modelled as a `Nat`; the
random generator `Uuid::new_v4()` is modelled by passing the value it
produced as an argument. -/

/-- Rust `ArenaId<T>` with the `uuid` feature: discriminator, generation tag,
slot index. -/
structure ArenaIdU where
  uuid : Nat
  uid : Nat
  idx : Nat
deriving DecidableEq, Repr

/-- Rust `impl Clone for ArenaId` (the explicit duplication operation, as
distinct from the bitwise `Copy`): with the `uuid` feature active it fills the
`uuid` field with `Uuid::new_v4()` — a freshly generated random value, passed
here as `freshUuid` — and copies only `uid` and `idx`. -/
def cloneU (h : ArenaIdU) (freshUuid : Nat) : ArenaIdU :=
  { uuid := freshUuid, uid := h.uid, idx := h.idx }

/-- Rust `Arena::match_id` under the `uuid` feature: the discriminator check
performed first by every handle-based access, against the arena's own
discriminator `arenaUuid`. -/
def match_idU (arenaUuid : Nat) (h : ArenaIdU) : Bool :=
  h.uuid == arenaUuid

/-! Arbitrary operation sequences.  `Op` enumerates the public mutating
operations of the arena; `applyOp` runs one (propagating panics) and
`runOps` a whole list.  A sequence only counts as executed when every
operation returns normally, mirroring a Rust program that does not panic. -/

/-- One public mutating operation of the arena. -/
inductive Op (T : Type) where
  | insert (v : T)
  | insertWith (f : ArenaId → T)
  | remove (id : ArenaId)
  | removeAt (i : Nat)
  | pop
  | clear
  | clearAll
  | swap (i j : Nat)
  | swapPositions (i j : ArenaId)
  | sortBy (cmp : T → T → Ordering)

/-- Run one operation, keeping only the resulting arena. -/
def applyOp (a : Arena T) : Op T → Option (Arena T)
  | .insert v => (insert a v).map (·.2)
  | .insertWith f => (insert_with a f).map (·.2)
  | .remove id => (remove a id).map (·.2)
  | .removeAt i => (remove_at a i).map (·.2)
  | .pop => (pop a).map (·.2)
  | .clear => clear a
  | .clearAll => clear_all a
  | .swap i j => swap a i j
  | .swapPositions i j => (swap_positions a i j).map (·.2)
  | .sortBy cmp => sort_by a cmp

/-- Run a list of operations left to right, propagating panics. -/
def runOps (a : Arena T) : List (Op T) → Option (Arena T)
  | [] => some a
  | op :: ops =>
    match applyOp a op with
    | none => none
    | some a' => runOps a' ops

/-! Generation-tag bookkeeping used to prove stale-handle rejection:
`uidsAt slots i` is the generation tag stored in slot `i` if that slot is
occupied. -/

/-- The generation tag of an occupied slot state. -/
def stateUid : State → Option Nat
  | .used u _ => some u
  | .free _ => none

/-- The generation tag stored at slot index `i`, if slot `i` exists and is
occupied. -/
def uidsAt (slots : List Slot) (i : Nat) : Option Nat :=
  (slots[i]?).bind fun s => stateUid s.state

/-- A single operation step from a table with generation counter `bound`
can only keep a tag in place or stamp a tag of at least `bound`. -/
def UidStep (bound : Nat) (s s' : List Slot) : Prop :=
  ∀ k u, uidsAt s' k = some u → uidsAt s k = some u ∨ bound ≤ u

/-- A handle `h` is retired in arena `a`: its tag is below the generation
counter and its slot does not carry its tag. -/
def Retired (h : ArenaId) (a : Arena T) : Prop :=
  h.uid < a.next_uid ∧ uidsAt a.slots h.idx ≠ some h.uid

/-- Non-inserting operations only keep tags in place or erase them. -/
def UidDrop (s s' : List Slot) : Prop :=
  ∀ k, uidsAt s' k = uidsAt s k ∨ uidsAt s' k = none

/-! The data-model invariants of specification section 3, used to state and
prove the swap-remove claim. -/

/-- The forward pointer stored in an occupied slot state. -/
def stateFwd : State → Option Nat
  | .used _ v => some v
  | .free _ => none

/-- Back-pointer read: the `value_slot` field of the table entry at position
`p`. -/
def ownerOf (a : Arena T) (p : Nat) : Option Nat :=
  (a.slots[p]?).map (·.value_slot)

/-- Forward-pointer read: the position stored in slot `i`, when occupied. -/
def fwdPtr (a : Arena T) (i : Nat) : Option Nat :=
  (a.slots[i]?).bind fun s => stateFwd s.state

/-- `optionHolds o p` holds when `o` is `none` or its content satisfies
`p`. -/
def optionHolds (o : Option α) (p : α → Prop) : Prop :=
  match o with
  | none => True
  | some x => p x

instance {o : Option α} {p : α → Prop} [∀ x, Decidable (p x)] :
    Decidable (optionHolds o p) :=
  match o with
  | none => Decidable.isTrue trivial
  | some x => inferInstanceAs (Decidable (p x))

/-- The section-3 invariants: the live count is bounded by the slot count;
every occupied slot's forward pointer is a live position whose back-pointer
points back at the slot; every live position's back-pointer leads to a slot
whose forward pointer is that position. -/
def WF (a : Arena T) : Prop :=
  a.values.length ≤ a.slots.length ∧
  (∀ i, i < a.slots.length →
    optionHolds (fwdPtr a i) fun v => v < a.values.length ∧ ownerOf a v = some i) ∧
  (∀ p, p < a.values.length → (ownerOf a p).bind (fwdPtr a) = some p)

instance {T : Type} (a : Arena T) : Decidable (WF a) := by
  unfold WF
  infer_instance

/-- Free-list traversal: starting from the head link, follow `next_free`
links, collecting visited slot indices, with an explicit step budget.  On a
sound free list of `n` free slots, any budget of at least `n + 1` collects
exactly the free slots, each once. -/
def freeChain (slots : List Slot) : Nat → Option Nat → List Nat
  | 0, _ => []
  | _ + 1, none => []
  | fuel + 1, some i =>
    i :: freeChain slots fuel ((slots[i]?).bind fun s =>
      match s.state with
      | .free nf => nf
      | .used _ _ => none)

/-! Concrete arenas reached by short operation sequences, used in the
claim-level evaluations.  Each literal is the result of running the listed
operations from `new`, which the corresponding theorem verifies. -/

/-- The arena after `insert 10; insert 20; insert 30` from `new`. -/
def arenaABC : Arena Nat :=
  { values := [10, 20, 30]
    slots := [{ value_slot := 0, state := .used 1 0 },
              { value_slot := 1, state := .used 2 1 },
              { value_slot := 2, state := .used 3 2 }]
    next_uid := 4
    first_free := none }

/-- `arenaABC` after `remove (uid 1, idx 0)`: the last value 30 moved into
position 0, slot 0 freed. -/
def arenaR1 : Arena Nat :=
  { values := [30, 20]
    slots := [{ value_slot := 2, state := .free none },
              { value_slot := 1, state := .used 2 1 },
              { value_slot := 2, state := .used 3 0 }]
    next_uid := 4
    first_free := some 0 }

/-- `arenaR1` after `swap 0 1` twice: the values are back to `[30, 20]` but
slot 1 (handle uid 2) now points at position 0, value 30 — handle
misdirection caused by `swap` writing back-pointers at the wrong indices. -/
def arenaC1 : Arena Nat :=
  { values := [30, 20]
    slots := [{ value_slot := 2, state := .free none },
              { value_slot := 2, state := .used 2 0 },
              { value_slot := 2, state := .used 3 0 }]
    next_uid := 4
    first_free := some 0 }

/-- `arenaR1` after `sort_by compare`: values sorted to `[20, 30]`, but the
back-pointer at position 0 is stale (2 instead of 1). -/
def arenaQ1 : Arena Nat :=
  { values := [20, 30]
    slots := [{ value_slot := 2, state := .free none },
              { value_slot := 2, state := .used 2 0 },
              { value_slot := 1, state := .used 3 1 }]
    next_uid := 4
    first_free := some 0 }

/-- `arenaQ1` after `sort_by` with the reversed comparator: both live slots
now carry wrong forward pointers. -/
def arenaQ2 : Arena Nat :=
  { values := [30, 20]
    slots := [{ value_slot := 2, state := .free none },
              { value_slot := 2, state := .used 2 0 },
              { value_slot := 2, state := .used 3 1 }]
    next_uid := 4
    first_free := some 0 }

/-- The arena after `insert 5` from `new`. -/
def arenaOne : Arena Nat :=
  { values := [5]
    slots := [{ value_slot := 0, state := .used 1 0 }]
    next_uid := 2
    first_free := none }

/-- `arenaOne` after `remove (uid 1, idx 0)` — the `p = last` path: the slot
is freed twice and its next-free link points back at itself. -/
def arenaOneRemoved : Arena Nat :=
  { values := []
    slots := [{ value_slot := 0, state := .free (some 0) }]
    next_uid := 2
    first_free := some 0 }

/-- `arenaOneRemoved` after one successful `insert 7` (the reused slot keeps
a corrupt free-list head pointing at the now-occupied slot). -/
def arenaReused : Arena Nat :=
  { values := [7]
    slots := [{ value_slot := 0, state := .used 2 0 }]
    next_uid := 3
    first_free := some 0 }

/-- `arenaOne` after `clear_all`. -/
def arenaCleared : Arena Nat :=
  { values := []
    slots := []
    next_uid := 2
    first_free := none }

/-- The arena after `insert 10; insert 20; remove (uid 1, idx 0)` from
`new`: one live value in slot 1, a freed slot 0 below it. -/
def arenaGap : Arena Nat :=
  { values := [20]
    slots := [{ value_slot := 1, state := .free none },
              { value_slot := 1, state := .used 2 0 }]
    next_uid := 3
    first_free := some 0 }

/-! Basic lemmas about `uidsAt`. -/

theorem uidsAt_set_ne {slots : List Slot} {k i : Nat} (h : k ≠ i) (sl : Slot) :
    uidsAt (slots.set k sl) i = uidsAt slots i := by
  unfold uidsAt
  rw [List.getElem?_set_ne h]

theorem uidsAt_set_self {slots : List Slot} {k : Nat} (h : k < slots.length) (sl : Slot) :
    uidsAt (slots.set k sl) k = stateUid sl.state := by
  unfold uidsAt
  rw [List.getElem?_set_self h]
  rfl

theorem lt_length_of_getElem?_eq_some {slots : List Slot} {k : Nat} {s : Slot}
    (h : slots[k]? = some s) : k < slots.length := by
  rcases List.getElem?_eq_some_iff.mp h with ⟨hk, _⟩
  exact hk

/-- Setting a slot while keeping its state does not change any stored tag. -/
theorem uidsAt_set_keep_state {slots : List Slot} {k : Nat} {s : Slot}
    (hs : slots[k]? = some s) (sl : Slot) (hst : sl.state = s.state) (i : Nat) :
    uidsAt (slots.set k sl) i = uidsAt slots i := by
  by_cases hik : k = i
  · subst hik
    rw [uidsAt_set_self (lt_length_of_getElem?_eq_some hs) sl, hst]
    unfold uidsAt
    rw [hs, Option.some_bind]
  · exact uidsAt_set_ne hik sl

theorem uidsAt_concat_ne {slots : List Slot} {x : Slot} {k : Nat}
    (h : k ≠ slots.length) : uidsAt (slots ++ [x]) k = uidsAt slots k := by
  unfold uidsAt
  rcases Nat.lt_or_ge k slots.length with hk | hk
  · rw [List.getElem?_append_left hk]
  · have hk1 : slots.length ≤ k := hk
    have hgt : slots.length < k := lt_of_le_of_ne hk1 (fun he => h he.symm)
    rw [List.getElem?_append_right hk1]
    have h1 : slots[k]? = none := List.getElem?_eq_none hk1
    have h2 : ([x] : List Slot)[k - slots.length]? = none := by
      apply List.getElem?_eq_none
      simp only [List.length_singleton]
      omega
    rw [h1, h2]

theorem uidsAt_concat_self {slots : List Slot} {x : Slot} :
    uidsAt (slots ++ [x]) slots.length = stateUid x.state := by
  unfold uidsAt
  rw [List.getElem?_concat_length]
  rfl

theorem uidStep_of_eq {bound : Nat} {s s' : List Slot}
    (h : ∀ k, uidsAt s' k = uidsAt s k) : UidStep bound s s' := by
  intro k u hk
  rw [h k] at hk
  exact Or.inl hk

theorem uidStep_trans {bound : Nat} {s1 s2 s3 : List Slot}
    (h12 : UidStep bound s1 s2) (h23 : UidStep bound s2 s3) : UidStep bound s1 s3 := by
  intro k u hk
  rcases h23 k u hk with h | h
  · exact h12 k u h
  · exact Or.inr h

/-! Per-operation lemmas: every operation leaves the generation counter
monotone and, on the slot table, either keeps each stored tag in place or
stamps a fresh tag of at least the old counter. -/

/-- A position swap preserves the generation counter and every stored tag. -/
theorem swap_spec {T : Type} {a a' : Arena T} {i j : Nat} (h : swap a i j = some a') :
    a'.next_uid = a.next_uid ∧ ∀ k, uidsAt a'.slots k = uidsAt a.slots k := by
  unfold swap at h
  split at h
  · exact absurd h (by simp)
  split at h
  · exact absurd h (by simp)
  split at h
  · cases h
    exact ⟨rfl, fun _ => rfl⟩
  · dsimp only at h
    split at h <;> rename_i si sj hsi hsj
    case _ =>
      split at h
      · exact absurd h (by simp)
      rename_i s1 hs1
      split at h
      · exact absurd h (by simp)
      rename_i uid_i v1 hst1
      split at h
      · exact absurd h (by simp)
      rename_i s2 hs2
      split at h
      · exact absurd h (by simp)
      rename_i uid_j v2 hst2
      cases h
      refine ⟨rfl, fun k => ?_⟩
      have hlt1 : si.value_slot < a.slots.length := lt_length_of_getElem?_eq_some hs1
      have huid1 : uidsAt a.slots si.value_slot = some uid_i := by
        unfold uidsAt
        rw [hs1, Option.some_bind, hst1]
        rfl
      have huid2 : uidsAt (a.slots.set si.value_slot
          { value_slot := sj.value_slot, state := .used uid_i j }) sj.value_slot
            = some uid_j := by
        unfold uidsAt
        rw [hs2, Option.some_bind, hst2]
        rfl
      have hlt2 : sj.value_slot <
          (a.slots.set si.value_slot
            { value_slot := sj.value_slot, state := .used uid_i j }).length :=
        lt_length_of_getElem?_eq_some hs2
      by_cases hkj : k = sj.value_slot
      · rw [hkj, uidsAt_set_self hlt2]
        by_cases hji : sj.value_slot = si.value_slot
        · rw [hji, huid1]
          rw [hji, uidsAt_set_self hlt1] at huid2
          simp only [stateUid] at huid2 ⊢
          exact huid2.symm
        · rw [uidsAt_set_ne (fun he => hji he.symm)] at huid2
          rw [huid2]
          rfl
      · rw [uidsAt_set_ne (fun he => hkj he.symm)]
        by_cases hki : k = si.value_slot
        · rw [hki, uidsAt_set_self hlt1, huid1]
          rfl
        · rw [uidsAt_set_ne (fun he => hki he.symm)]
    all_goals exact absurd h (by simp)

theorem uidDrop_refl (s : List Slot) : UidDrop s s := fun _ => Or.inl rfl

theorem uidDrop_trans {s1 s2 s3 : List Slot} (h12 : UidDrop s1 s2) (h23 : UidDrop s2 s3) :
    UidDrop s1 s3 := by
  intro k
  rcases h23 k with h | h
  · rcases h12 k with h' | h'
    · exact Or.inl (h.trans h')
    · exact Or.inr (h.trans h')
  · exact Or.inr h

theorem uidDrop_of_eq {s1 s2 : List Slot} (h : ∀ k, uidsAt s2 k = uidsAt s1 k) :
    UidDrop s1 s2 := fun k => Or.inl (h k)

theorem uidStep_of_uidDrop {bound : Nat} {s s' : List Slot} (h : UidDrop s s') :
    UidStep bound s s' := by
  intro k u hk
  rcases h k with h' | h'
  · exact Or.inl (h'.symm.trans hk)
  · rw [h'] at hk
    cases hk

/-- Setting one slot to a free state drops that slot's tag and keeps all
others. -/
theorem uidDrop_set_free (slots : List Slot) (k : Nat) (sl : Slot)
    (hf : stateUid sl.state = none) : UidDrop slots (slots.set k sl) := by
  intro i
  by_cases hik : k = i
  · by_cases hlt : k < slots.length
    · right
      rw [← hik, uidsAt_set_self hlt, hf]
    · left
      rw [List.set_eq_of_length_le (Nat.le_of_not_lt hlt)]
  · left
    exact uidsAt_set_ne hik sl

/-- The insertion operation: the returned handle's tag is the old counter,
the counter advances by one, and the slot table takes a `UidStep`. -/
theorem insert_with_spec {T : Type} {a a' : Arena T} {f : ArenaId → T} {id : ArenaId}
    (h : insert_with a f = some (id, a')) :
    id.uid = a.next_uid ∧ a'.next_uid = a.next_uid + 1 ∧
      UidStep a.next_uid a.slots a'.slots := by
  unfold insert_with at h
  split at h
  case _ idx hff =>
    split at h
    · exact absurd h (by simp)
    rename_i s hs
    split at h
    · exact absurd h (by simp)
    rename_i nf hnf
    dsimp only at h
    split at h
    · exact absurd h (by simp)
    rename_i sv hsv
    cases h
    refine ⟨rfl, rfl, ?_⟩
    intro k u hk
    dsimp only at hk
    rw [uidsAt_set_keep_state hsv { sv with value_slot := idx } rfl] at hk
    by_cases hki : idx = k
    · right
      rw [← hki, uidsAt_set_self (lt_length_of_getElem?_eq_some hs)] at hk
      simp only [stateUid, Option.some.injEq] at hk
      omega
    · left
      rw [uidsAt_set_ne hki] at hk
      exact hk
  case _ hff =>
    dsimp only at h
    split at h
    · exact absurd h (by simp)
    rename_i sv hsv
    cases h
    refine ⟨rfl, rfl, ?_⟩
    intro k u hk
    dsimp only at hk
    rw [uidsAt_set_keep_state hsv { sv with value_slot := a.slots.length } rfl] at hk
    by_cases hki : k = a.slots.length
    · right
      rw [hki, uidsAt_concat_self] at hk
      simp only [stateUid, Option.some.injEq] at hk
      omega
    · left
      rw [uidsAt_concat_ne hki] at hk
      exact hk

/-- The pop operation keeps the counter and drops at most one tag. -/
theorem pop_spec {T : Type} {a a' : Arena T} {r : Option T}
    (h : pop a = some (r, a')) :
    a'.next_uid = a.next_uid ∧ UidDrop a.slots a'.slots := by
  unfold pop at h
  split at h
  · cases h
    exact ⟨rfl, uidDrop_refl _⟩
  rename_i v hv
  dsimp only at h
  split at h
  · exact absurd h (by simp)
  rename_i s hs
  split at h
  · exact absurd h (by simp)
  rename_i s2 hs2
  cases h
  exact ⟨rfl, uidDrop_set_free _ _ _ rfl⟩

/-- The remove operation keeps the counter, drops at most tags, and leaves
the removed handle's slot without a tag whenever a value was returned. -/
theorem remove_spec {T : Type} {a a' : Arena T} {id : ArenaId} {r : Option T}
    (h : remove a id = some (r, a')) :
    a'.next_uid = a.next_uid ∧ UidDrop a.slots a'.slots ∧
      (∀ v, r = some v → uidsAt a'.slots id.idx = none) := by
  unfold remove at h
  split at h
  · exact absurd h (by simp)
  rename_i s hs
  split at h
  case _ nf hnf =>
    cases h
    exact ⟨rfl, uidDrop_refl _, fun v hv => by cases hv⟩
  case _ uid value hused =>
    split at h
    case isFalse =>
      cases h
      exact ⟨rfl, uidDrop_refl _, fun v hv => by cases hv⟩
    case isTrue huid =>
      dsimp only at h
      split at h
      · exact absurd h (by simp)
      case isFalse hne =>
        have hidlt : id.idx < a.slots.length := lt_length_of_getElem?_eq_some hs
        have hdrop1 : UidDrop a.slots
            (a.slots.set id.idx { s with state := .free a.first_free }) :=
          uidDrop_set_free _ _ _ rfl
        have hnone1 : uidsAt (a.slots.set id.idx { s with state := .free a.first_free })
            id.idx = none := by
          rw [uidsAt_set_self hidlt]
          rfl
        split at h
        case isTrue hlast =>
          split at h
          · exact absurd h (by simp)
          rename_i sl hsl
          split at h
          · exact absurd h (by simp)
          rename_i sr hsr
          split at h
          · exact absurd h (by simp)
          rename_i sls hsls
          split at h
          · exact absurd h (by simp)
          rename_i uid2 v2 hused2
          split at h
          · exact absurd h (by simp)
          rename_i v1 values1 hswap
          cases h
          have hkeep : ∀ k,
              uidsAt ((a.slots.set id.idx { s with state := .free a.first_free }).set value
                { sr with value_slot := sl.value_slot }) k
              = uidsAt (a.slots.set id.idx { s with state := .free a.first_free }) k :=
            fun k => uidsAt_set_keep_state hsr { sr with value_slot := sl.value_slot } rfl k
          have hnone2 : uidsAt ((a.slots.set id.idx
              { s with state := .free a.first_free }).set value
                { sr with value_slot := sl.value_slot }) id.idx = none := by
            rw [hkeep id.idx]
            exact hnone1
          have huid2 : uidsAt ((a.slots.set id.idx
              { s with state := .free a.first_free }).set value
                { sr with value_slot := sl.value_slot }) sl.value_slot = some uid2 := by
            unfold uidsAt
            rw [hsls, Option.some_bind, hused2]
            rfl
          have hne2 : sl.value_slot ≠ id.idx := by
            intro he
            revert huid2 hnone2
            generalize (a.slots.set id.idx
              { s with state := .free a.first_free }).set value
                { sr with value_slot := sl.value_slot } = X
            intro h1 h2
            rw [he] at h2
            exact Option.noConfusion (h1.symm.trans h2)
          have hlt3 : sl.value_slot <
              ((a.slots.set id.idx { s with state := .free a.first_free }).set value
                { sr with value_slot := sl.value_slot }).length :=
            lt_length_of_getElem?_eq_some hsls
          constructor
          · rfl
          constructor
          · refine uidDrop_trans hdrop1 (uidDrop_trans (uidDrop_of_eq hkeep) ?_)
            intro k
            by_cases hk : k = sl.value_slot
            · left
              rw [hk, uidsAt_set_self hlt3, huid2]
              rfl
            · left
              exact uidsAt_set_ne (fun he => hk he.symm) _
          · intro v hv
            rw [uidsAt_set_ne hne2]
            exact hnone2
        case isFalse hlast =>
          rcases pop_spec h with ⟨hnu, hdrop2⟩
          refine ⟨hnu, uidDrop_trans hdrop1 hdrop2, fun v hv => ?_⟩
          rcases hdrop2 id.idx with h' | h'
          · rw [h']
            exact hnone1
          · exact h'

/-- The clearing loop only frees slots. -/
theorem clearLoop_spec : ∀ (fuel : Nat) {slots : List Slot} {ff : Option Nat} {i n : Nat}
    {slots' : List Slot} {ff' : Option Nat},
    clearLoop fuel slots ff i n = some (slots', ff') → UidDrop slots slots' := by
  intro fuel
  induction fuel with
  | zero =>
    intro slots ff i n slots' ff' h
    rw [clearLoop] at h
    exact Option.noConfusion h
  | succ fuel ih =>
    intro slots ff i n slots' ff' h
    rw [clearLoop] at h
    split at h
    · split at h
      · exact Option.noConfusion h
      · rename_i s hs
        split at h
        · exact Option.noConfusion h
        · rename_i s2 hs2
          exact uidDrop_trans
            (uidDrop_set_free slots s.value_slot { s2 with state := .free ff } rfl) (ih h)
    · simp only [Option.some.injEq, Prod.mk.injEq] at h
      rw [← h.1]
      exact uidDrop_refl _

/-- Clearing (with or without discarding the slot table) keeps the counter
and only frees slots. -/
theorem clear_opt_spec {T : Type} {a a' : Arena T} {b : Bool}
    (h : clear_opt a b = some a') :
    a'.next_uid = a.next_uid ∧ UidDrop a.slots a'.slots := by
  unfold clear_opt at h
  split at h
  · cases h
    exact ⟨rfl, fun k => Or.inr rfl⟩
  · split at h
    · exact absurd h (by simp)
    rename_i out hloop
    cases h
    exact ⟨rfl, clearLoop_spec _ hloop⟩

/-- The partition loop of quicksort preserves the counter and every tag. -/
theorem partLoop_spec : ∀ {cmp : T → T → Ordering} {high : Nat} (fuel : Nat)
    {a : Arena T} {i j : Nat} {a' : Arena T} {j' : Nat},
    partLoop cmp high fuel a i j = some (a', j') →
    a'.next_uid = a.next_uid ∧ ∀ k, uidsAt a'.slots k = uidsAt a.slots k := by
  intro cmp high fuel
  induction fuel with
  | zero =>
    intro a i j a' j' h
    rw [partLoop] at h
    exact Option.noConfusion h
  | succ fuel ih =>
    intro a i j a' j' h
    rw [partLoop] at h
    split at h
    · split at h
      · rename_i vi vh hvi hvh
        split at h
        · exact ih h
        · split at h
          · exact Option.noConfusion h
          · rename_i a1 hswap
            rcases swap_spec hswap with ⟨hnu, hu⟩
            rcases ih h with ⟨hnu2, hu2⟩
            exact ⟨hnu2.trans hnu, fun k => (hu2 k).trans (hu k)⟩
      · exact Option.noConfusion h
    · simp only [Option.some.injEq, Prod.mk.injEq] at h
      rw [← h.1]
      exact ⟨rfl, fun _ => rfl⟩

/-- Quicksort preserves the counter and every tag. -/
theorem quicksort_spec : ∀ {cmp : T → T → Ordering} (fuel : Nat) {a : Arena T}
    {low high : Nat} {a' : Arena T},
    quicksort cmp fuel a low high = some a' →
    a'.next_uid = a.next_uid ∧ ∀ k, uidsAt a'.slots k = uidsAt a.slots k := by
  intro cmp fuel
  induction fuel with
  | zero =>
    intro a low high a' h
    rw [quicksort] at h
    cases h
  | succ fuel ih =>
    intro a low high a' h
    rw [quicksort] at h
    split at h
    · cases h
      exact ⟨rfl, fun _ => rfl⟩
    · split at h
      · exact Option.noConfusion h
      rename_i a1 j hpart
      by_cases hj : j = 0
      · rw [if_pos hj] at h
        exact Option.noConfusion h
      · rw [if_neg hj] at h
        dsimp only at h
        split at h
        · exact Option.noConfusion h
        rename_i a2 hq1
        rcases partLoop_spec _ hpart with ⟨hnu1, hu1⟩
        rcases ih hq1 with ⟨hnu2, hu2⟩
        rcases ih h with ⟨hnu3, hu3⟩
        exact ⟨(hnu3.trans hnu2).trans hnu1,
          fun k => ((hu3 k).trans (hu2 k)).trans (hu1 k)⟩

/-- Sorting preserves the counter and every tag. -/
theorem sort_by_spec {T : Type} {a a' : Arena T} {cmp : T → T → Ordering}
    (h : sort_by a cmp = some a') :
    a'.next_uid = a.next_uid ∧ ∀ k, uidsAt a'.slots k = uidsAt a.slots k := by
  unfold sort_by at h
  split at h
  · exact quicksort_spec _ h
  · cases h
    exact ⟨rfl, fun _ => rfl⟩

/-- Every operation leaves the counter monotone and takes a `UidStep` on the
slot table. -/
theorem applyOp_spec {T : Type} {a a' : Arena T} {op : Op T}
    (h : applyOp a op = some a') :
    a.next_uid ≤ a'.next_uid ∧ UidStep a.next_uid a.slots a'.slots := by
  cases op with
  | insert v =>
    simp only [applyOp, insert, Option.map_eq_some'] at h
    rcases h with ⟨⟨id, a1⟩, h1, rfl⟩
    dsimp only
    rcases insert_with_spec h1 with ⟨_, hnu, hstep⟩
    exact ⟨by omega, hstep⟩
  | insertWith f =>
    simp only [applyOp, Option.map_eq_some'] at h
    rcases h with ⟨⟨id, a1⟩, h1, rfl⟩
    dsimp only
    rcases insert_with_spec h1 with ⟨_, hnu, hstep⟩
    exact ⟨by omega, hstep⟩
  | remove id =>
    simp only [applyOp, Option.map_eq_some'] at h
    rcases h with ⟨⟨r, a1⟩, h1, rfl⟩
    dsimp only
    rcases remove_spec h1 with ⟨hnu, hdrop, _⟩
    exact ⟨hnu.ge, uidStep_of_uidDrop hdrop⟩
  | removeAt i =>
    simp only [applyOp, remove_at] at h
    split at h
    · exact Option.noConfusion h
    · simp only [Option.map_some, Option.map_some', Option.some.injEq] at h
      rw [← h]
      exact ⟨Nat.le_refl _, uidStep_of_uidDrop (uidDrop_refl _)⟩
    · rename_i id hid
      simp only [Option.map_eq_some'] at h
      rcases h with ⟨⟨r, a1⟩, h1, rfl⟩
      dsimp only
      rcases remove_spec h1 with ⟨hnu, hdrop, _⟩
      exact ⟨hnu.ge, uidStep_of_uidDrop hdrop⟩
  | pop =>
    simp only [applyOp, Option.map_eq_some'] at h
    rcases h with ⟨⟨r, a1⟩, h1, rfl⟩
    dsimp only
    rcases pop_spec h1 with ⟨hnu, hdrop⟩
    exact ⟨hnu.ge, uidStep_of_uidDrop hdrop⟩
  | clear =>
    simp only [applyOp, clear] at h
    rcases clear_opt_spec h with ⟨hnu, hdrop⟩
    exact ⟨hnu.ge, uidStep_of_uidDrop hdrop⟩
  | clearAll =>
    simp only [applyOp, clear_all] at h
    rcases clear_opt_spec h with ⟨hnu, hdrop⟩
    exact ⟨hnu.ge, uidStep_of_uidDrop hdrop⟩
  | swap i j =>
    simp only [applyOp] at h
    rcases swap_spec h with ⟨hnu, huids⟩
    exact ⟨hnu.ge, uidStep_of_eq huids⟩
  | swapPositions i j =>
    simp only [applyOp, swap_positions] at h
    split at h
    · rename_i pi hpi
      split at h
      · rename_i pj hpj
        rcases hsw : swap a pi pj with _ | a2
        · rw [hsw] at h
          exact Option.noConfusion h
        · rw [hsw] at h
          simp only [Option.map_some, Option.map_some', Option.some.injEq] at h
          rw [← h]
          rcases swap_spec hsw with ⟨hnu, huids⟩
          exact ⟨hnu.ge, uidStep_of_eq huids⟩
      · simp only [Option.map_some, Option.map_some', Option.some.injEq] at h
        rw [← h]
        exact ⟨Nat.le_refl _, uidStep_of_uidDrop (uidDrop_refl _)⟩
    · simp only [Option.map_some, Option.map_some', Option.some.injEq] at h
      rw [← h]
      exact ⟨Nat.le_refl _, uidStep_of_uidDrop (uidDrop_refl _)⟩
  | sortBy cmp =>
    simp only [applyOp] at h
    rcases sort_by_spec h with ⟨hnu, huids⟩
    exact ⟨hnu.ge, uidStep_of_eq huids⟩

/-- Once retired, a handle stays retired through any single operation. -/
theorem retired_applyOp {T : Type} {h : ArenaId} {a a' : Arena T} {op : Op T}
    (hr : Retired h a) (ha : applyOp a op = some a') : Retired h a' := by
  rcases applyOp_spec ha with ⟨hle, hstep⟩
  rcases hr with ⟨hlt, hne⟩
  refine ⟨by omega, fun hcon => ?_⟩
  rcases hstep h.idx h.uid hcon with hc | hc
  · exact hne hc
  · omega

/-- Once retired, a handle stays retired through any operation sequence. -/
theorem retired_runOps {T : Type} {h : ArenaId} {a a' : Arena T} {ops : List (Op T)}
    (hr : Retired h a) (ha : runOps a ops = some a') : Retired h a' := by
  induction ops generalizing a with
  | nil =>
    rw [runOps] at ha
    cases ha
    exact hr
  | cons op ops ih =>
    rw [runOps] at ha
    split at ha
    · exact Option.noConfusion ha
    · rename_i a1 h1
      exact ih (retired_applyOp hr h1) ha

/-- The generation counter never decreases along an operation sequence. -/
theorem runOps_next_uid_le {T : Type} {a a' : Arena T} {ops : List (Op T)}
    (ha : runOps a ops = some a') : a.next_uid ≤ a'.next_uid := by
  induction ops generalizing a with
  | nil =>
    rw [runOps] at ha
    cases ha
    exact Nat.le_refl _
  | cons op ops ih =>
    rw [runOps] at ha
    split at ha
    · exact Option.noConfusion ha
    · rename_i a1 h1
      exact (applyOp_spec h1).1.trans (ih ha)

/-- A retired handle is rejected by `get`. -/
theorem get_of_retired {T : Type} {h : ArenaId} {a : Arena T} (hr : Retired h a) :
    get a h = some none := by
  rcases hr with ⟨_, hne⟩
  unfold get
  split
  · rfl
  · rename_i s hs
    split
    · rename_i uid value hst
      split
      · rename_i heq
        exfalso
        apply hne
        unfold uidsAt
        rw [hs, Option.some_bind, hst]
        simp only [stateUid, heq]
      · rfl
    · rfl

/-- A retired handle is rejected by `get_mut`. -/
theorem get_mut_of_retired {T : Type} {h : ArenaId} {a : Arena T} (hr : Retired h a) :
    get_mut a h = some none := by
  rcases hr with ⟨_, hne⟩
  unfold get_mut
  split
  · rfl
  · rename_i s hs
    split
    · rename_i uid value hst
      split
      · rename_i heq
        exfalso
        apply hne
        unfold uidsAt
        rw [hs, Option.some_bind, hst]
        simp only [stateUid, heq]
      · rfl
    · rfl

/-- A retired handle is rejected by `index_of`. -/
theorem index_of_of_retired {T : Type} {h : ArenaId} {a : Arena T} (hr : Retired h a) :
    index_of a h = none := by
  rcases hr with ⟨_, hne⟩
  unfold index_of
  split
  · rfl
  · rename_i s hs
    split
    · rename_i uid value hst
      split
      · rename_i heq
        exfalso
        apply hne
        unfold uidsAt
        rw [hs, Option.some_bind, hst]
        simp only [stateUid, heq]
      · rfl
    · rfl

/-- A retired handle is rejected by `contains`. -/
theorem contains_of_retired {T : Type} {h : ArenaId} {a : Arena T} (hr : Retired h a) :
    contains a h = some false := by
  unfold contains
  rw [get_of_retired hr]
  rfl

/-- Inversion of a successful `index_of`. -/
theorem index_of_some_inv {T : Type} {a : Arena T} {h : ArenaId} {p : Nat}
    (hp : index_of a h = some p) :
    ∃ s, a.slots[h.idx]? = some s ∧ s.state = .used h.uid p := by
  unfold index_of at hp
  split at hp
  · exact Option.noConfusion hp
  rename_i s hs
  split at hp
  · rename_i uid value hst
    split at hp
    · rename_i heq
      cases hp
      exact ⟨s, hs, by rw [hst, heq]⟩
    · exact Option.noConfusion hp
  · exact Option.noConfusion hp

/-- Inversion of a back-pointer read. -/
theorem ownerOf_inv {T : Type} {a : Arena T} {p ls : Nat} (h : ownerOf a p = some ls) :
    ∃ sl, a.slots[p]? = some sl ∧ sl.value_slot = ls := by
  unfold ownerOf at h
  rcases hq : a.slots[p]? with _ | sl
  · rw [hq] at h
    exact Option.noConfusion h
  · rw [hq, Option.map_some'] at h
    exact ⟨sl, rfl, Option.some.inj h⟩

/-- Claim C4 (swap-remove correctness): on an arena satisfying the section-3
invariants, `remove` on a valid handle whose value is at position `p`, with
`last` the final live position: if `p < last` it returns the removed value,
shrinks the value store by one, moves exactly the value formerly at `last`
into position `p` (leaving every other position unchanged), updates the
forward pointer of the slot owning `last` to `p` (keeping its generation tag)
and the back-pointer at `p` to that slot; if `p = last` it only truncates the
value store by one with no relocation. -/
theorem claimC4_swap_remove_correct {T : Type} {a : Arena T} {h : ArenaId} {p : Nat}
    (hwf : WF a) (hp : index_of a h = some p) :
    ∃ v a', remove a h = some (some v, a') ∧
      a.values[p]? = some v ∧
      a'.values.length + 1 = a.values.length ∧
      (p + 1 < a.values.length →
        a'.values[p]? = a.values[a.values.length - 1]? ∧
        (∀ q, q < a'.values.length → q ≠ p → a'.values[q]? = a.values[q]?) ∧
        ∃ ls, ownerOf a (a.values.length - 1) = some ls ∧
          fwdPtr a' ls = some p ∧
          uidsAt a'.slots ls = uidsAt a.slots ls ∧
          ownerOf a' p = some ls) ∧
      (p + 1 = a.values.length → a'.values = a.values.dropLast) := by
  obtain ⟨hlen, hfwdok, hbackok⟩ := hwf
  obtain ⟨s, hs, hst⟩ := index_of_some_inv hp
  have hidx_lt : h.idx < a.slots.length := lt_length_of_getElem?_eq_some hs
  have hfwd_h : fwdPtr a h.idx = some p := by
    unfold fwdPtr
    rw [hs, Option.some_bind, hst]
    rfl
  have hok := hfwdok h.idx hidx_lt
  rw [hfwd_h] at hok
  obtain ⟨hplen, howner_p⟩ : p < a.values.length ∧ ownerOf a p = some h.idx := hok
  have hne0 : ¬ a.values.length = 0 := by omega
  have hvp : a.values[p]? = some (a.values.get ⟨p, hplen⟩) := by
    rw [List.getElem?_eq_getElem hplen]
    rfl
  obtain ⟨lastv, hlastv⟩ : ∃ lv, a.values.getLast? = some lv := by
    rw [List.getLast?_eq_getElem?, List.getElem?_eq_getElem (by omega)]
    exact ⟨_, rfl⟩
  have hlastv' : a.values[a.values.length - 1]? = some lastv := by
    rw [← List.getLast?_eq_getElem?]
    exact hlastv
  -- the slot owning the last position
  have hback := hbackok (a.values.length - 1) (by omega)
  rcases hlso : ownerOf a (a.values.length - 1) with _ | ls
  · rw [hlso] at hback
    exact Option.noConfusion hback
  rw [hlso, Option.some_bind] at hback
  rcases hlsq : a.slots[ls]? with _ | sls0
  · rw [fwdPtr, hlsq] at hback
    exact Option.noConfusion hback
  obtain ⟨uls, hlsst⟩ : ∃ u, sls0.state = .used u (a.values.length - 1) := by
    rw [fwdPtr, hlsq, Option.some_bind] at hback
    cases hq : sls0.state with
    | used u v2 =>
      rw [hq] at hback
      simp only [stateFwd, Option.some.injEq] at hback
      exact ⟨u, by rw [hback]⟩
    | free nf =>
      rw [hq] at hback
      exact Option.noConfusion hback
  have huls : uidsAt a.slots ls = some uls := by
    unfold uidsAt
    rw [hlsq, Option.some_bind, hlsst]
    rfl
  rcases Nat.lt_or_ge (p + 1) a.values.length with hcase | hcase
  · -- the removed value is not at the last position
    have hpne : p ≠ a.values.length - 1 := by omega
    have hls_ne_idx : ls ≠ h.idx := by
      intro he
      rw [he] at hlsq
      have hss : s = sls0 := Option.some.inj (hs.symm.trans hlsq)
      rw [← hss] at hlsst
      rw [hst] at hlsst
      simp only [State.used.injEq] at hlsst
      omega
    obtain ⟨sl0, hsl0q, hsl0vs⟩ := ownerOf_inv hlso
    have hps1 : p < (a.slots.set h.idx { s with state := State.free a.first_free }).length := by
      rw [List.length_set]
      omega
    obtain ⟨sr, hsr⟩ :
        ∃ sr, (a.slots.set h.idx { s with state := State.free a.first_free })[p]? = some sr :=
      ⟨_, List.getElem?_eq_getElem hps1⟩
    obtain ⟨sl1, hsl1, hsl1vs⟩ :
        ∃ sl1, (a.slots.set h.idx
            { s with state := State.free a.first_free })[a.values.length - 1]? = some sl1 ∧
          sl1.value_slot = ls := by
      by_cases hhl : h.idx = a.values.length - 1
      · refine ⟨{ s with state := State.free a.first_free }, ?_, ?_⟩
        · rw [← hhl, List.getElem?_set_self hidx_lt]
        · rw [← hhl] at hsl0q
          have : s = sl0 := Option.some.inj (hs.symm.trans hsl0q)
          rw [← this] at hsl0vs
          exact hsl0vs
      · exact ⟨sl0, by rw [List.getElem?_set_ne hhl]; exact hsl0q, hsl0vs⟩
    obtain ⟨sls2, hsls2, hsls2st, hsls2vs⟩ :
        ∃ sls2, ((a.slots.set h.idx { s with state := State.free a.first_free }).set p
            { sr with value_slot := ls })[ls]? = some sls2 ∧ sls2.state = sls0.state ∧
            (p = ls → sls2.value_slot = ls) := by
      by_cases hlp : p = ls
      · have hsrv : sr = sls0 := by
          rw [← hlp] at hlsq
          have h1 : (a.slots.set h.idx
              { s with state := State.free a.first_free })[p]? = a.slots[p]? := by
            apply List.getElem?_set_ne
            intro he
            exact hls_ne_idx (hlp.symm.trans he.symm)
          rw [h1, hlsq] at hsr
          exact (Option.some.inj hsr).symm
        refine ⟨{ sr with value_slot := ls }, ?_, ?_, fun _ => rfl⟩
        · rw [← hlp]
          exact List.getElem?_set_self hps1
        · rw [hsrv]
      · refine ⟨sls0, ?_, rfl, fun he => absurd he hlp⟩
        rw [List.getElem?_set_ne hlp, List.getElem?_set_ne (fun he => hls_ne_idx he.symm)]
        exact hlsq
    have hswap : swapRemove a.values p
        = some (a.values.get ⟨p, hplen⟩, (a.values.set p lastv).dropLast) := by
      unfold swapRemove
      rw [hvp, hlastv]
    have hrem : remove a h = some (some (a.values.get ⟨p, hplen⟩),
        { values := (a.values.set p lastv).dropLast
          slots := ((a.slots.set h.idx { s with state := State.free a.first_free }).set p
              { sr with value_slot := ls }).set ls { sls2 with state := State.used uls p }
          next_uid := a.next_uid
          first_free := some h.idx }) := by
      unfold remove
      split
      · rename_i heq
        exact Option.noConfusion (hs.symm.trans heq)
      rename_i s' hs'
      have hss : s' = s := Option.some.inj (hs'.symm.trans hs)
      subst hss
      split
      · rename_i nf heq2
        rw [hst] at heq2
        exact State.noConfusion heq2
      · rename_i uid value heq2
        rw [hst] at heq2
        injection heq2 with h1 h2
        subst h1
        subst h2
        rw [if_pos rfl]
        dsimp only
        rw [if_neg hne0]
        rw [if_pos (show p < a.values.length - 1 by omega)]
        simp only [hsl1, hsl1vs, hsr, hsls2, hsls2st, hlsst, hswap]
    have hls_lt3 : ls < ((a.slots.set h.idx { s with state := State.free a.first_free }).set p
        { sr with value_slot := ls }).length := lt_length_of_getElem?_eq_some hsls2
    refine ⟨a.values.get ⟨p, hplen⟩,
      { values := (a.values.set p lastv).dropLast
        slots := ((a.slots.set h.idx { s with state := State.free a.first_free }).set p
            { sr with value_slot := ls }).set ls { sls2 with state := State.used uls p }
        next_uid := a.next_uid
        first_free := some h.idx }, hrem, hvp, ?_, ?_, ?_⟩
    · dsimp only
      rw [List.length_dropLast, List.length_set]
      omega
    · intro _
      refine ⟨?_, ?_, ⟨ls, rfl, ?_, ?_, ?_⟩⟩
      · dsimp only
        rw [List.getElem?_dropLast, List.length_set, if_pos (by omega),
          List.getElem?_set_self hplen, hlastv']
      · intro q hq hqp
        dsimp only at hq ⊢
        rw [List.length_dropLast, List.length_set] at hq
        rw [List.getElem?_dropLast, List.length_set, if_pos hq,
          List.getElem?_set_ne (fun he => hqp he.symm)]
      · unfold fwdPtr
        dsimp only
        rw [List.getElem?_set_self hls_lt3, Option.some_bind]
        rfl
      · unfold uidsAt
        dsimp only
        rw [List.getElem?_set_self hls_lt3, Option.some_bind, hlsq, Option.some_bind, hlsst]
        rfl
      · unfold ownerOf
        dsimp only
        by_cases hlp : ls = p
        · subst hlp
          rw [List.getElem?_set_self hls_lt3, Option.map_some']
          rw [hsls2vs rfl]
        · rw [List.getElem?_set_ne hlp, List.getElem?_set_self hps1, Option.map_some']
    · intro he
      exact absurd he (by omega)
  · -- the removed value is at the last position
    have hp_eq : p = a.values.length - 1 := by omega
    obtain ⟨sp, hspq, hspvs⟩ := ownerOf_inv howner_p
    obtain ⟨sp1, hsp1, hsp1vs⟩ :
        ∃ sp1, (a.slots.set h.idx
            { s with state := State.free a.first_free })[a.values.length - 1]? = some sp1 ∧
          sp1.value_slot = h.idx := by
      by_cases hhl : h.idx = a.values.length - 1
      · refine ⟨{ s with state := State.free a.first_free }, ?_, ?_⟩
        · rw [← hhl, List.getElem?_set_self hidx_lt]
        · show s.value_slot = h.idx
          have hph : h.idx = p := by omega
          rw [hph] at hs
          have hssp : s = sp := Option.some.inj (hs.symm.trans hspq)
          rw [hssp]
          exact hspvs
      · refine ⟨sp, ?_, hspvs⟩
        rw [List.getElem?_set_ne hhl, ← hp_eq]
        exact hspq
    have hfr : (a.slots.set h.idx
        { s with state := State.free a.first_free })[h.idx]? =
        some { s with state := State.free a.first_free } :=
      List.getElem?_set_self hidx_lt
    have hrem : remove a h = some (some lastv,
        { values := a.values.dropLast
          slots := (a.slots.set h.idx { s with state := State.free a.first_free }).set h.idx
            { value_slot := s.value_slot, state := State.free (some h.idx) }
          next_uid := a.next_uid
          first_free := some h.idx }) := by
      unfold remove
      split
      · rename_i heq
        exact Option.noConfusion (hs.symm.trans heq)
      rename_i s' hs'
      have hss : s' = s := Option.some.inj (hs'.symm.trans hs)
      subst hss
      split
      · rename_i nf heq2
        rw [hst] at heq2
        exact State.noConfusion heq2
      · rename_i uid value heq2
        rw [hst] at heq2
        injection heq2 with h1 h2
        subst h1
        subst h2
        rw [if_pos rfl]
        dsimp only
        rw [if_neg hne0]
        rw [if_neg (show ¬(p < a.values.length - 1) by omega)]
        unfold pop
        dsimp only
        simp only [hlastv, List.length_dropLast, hp_eq, hsp1, hsp1vs, hfr]
    refine ⟨lastv, _, hrem, ?_, ?_, ?_, fun _ => rfl⟩
    · rw [hp_eq]
      exact hlastv'
    · dsimp only
      rw [List.length_dropLast]
      omega
    · intro hcon
      exact absurd hcon (by omega)

/-- Claim C2 (stale-handle rejection): a handle issued by an insertion, once
successfully removed, is rejected by every subsequent `get`, `get_mut`,
`contains` and `index_of`, after any further sequence of operations — even
insertions that reuse the handle's slot index — because every insertion
stamps a freshly minted, strictly larger generation tag. -/
theorem claimC2_stale_handle_rejection {T : Type} {a0 a1 a2 a3 a4 : Arena T}
    {create : ArenaId → T} {h : ArenaId} {ops1 ops2 : List (Op T)} {v : T}
    (hins : insert_with a0 create = some (h, a1))
    (hops1 : runOps a1 ops1 = some a2)
    (hrem : remove a2 h = some (some v, a3))
    (hops2 : runOps a3 ops2 = some a4) :
    get a4 h = some none ∧ get_mut a4 h = some none ∧
      contains a4 h = some false ∧ index_of a4 h = none := by
  obtain ⟨hhu, hnu1, _⟩ := insert_with_spec hins
  have hlt2 : h.uid < a2.next_uid := by
    have := runOps_next_uid_le hops1
    omega
  rcases remove_spec hrem with ⟨hnu3, _, hnone⟩
  have hret : Retired h a3 := by
    refine ⟨by omega, ?_⟩
    rw [hnone v rfl]
    exact fun hc => Option.noConfusion hc
  have hret4 := retired_runOps hret hops2
  exact ⟨get_of_retired hret4, get_mut_of_retired hret4,
    contains_of_retired hret4, index_of_of_retired hret4⟩

/-- Witness for claim C2 at a concrete run: insert 5, remove it, then insert
7 — which reuses slot 0 with generation tag 2 — and the stale handle
`(uid 1, idx 0)` is still rejected everywhere. -/
theorem claimC2_stale_handle_rejection_witness :
    insert_with (new Nat) (fun _ => 5) = some (⟨1, 0⟩, arenaOne) ∧
    runOps arenaOne [] = some arenaOne ∧
    remove arenaOne ⟨1, 0⟩ = some (some 5, arenaOneRemoved) ∧
    runOps arenaOneRemoved [Op.insert 7] = some arenaReused ∧
    (get arenaReused ⟨1, 0⟩ = some none ∧ get_mut arenaReused ⟨1, 0⟩ = some none ∧
      contains arenaReused ⟨1, 0⟩ = some false ∧ index_of arenaReused ⟨1, 0⟩ = none) :=
  ⟨by decide, by decide, by decide, by decide,
    @claimC2_stale_handle_rejection Nat (new Nat) arenaOne arenaOne arenaOneRemoved
      arenaReused (fun _ => 5) ⟨1, 0⟩ [] [Op.insert 7] 5
      (by decide) (by decide) (by decide) (by decide)⟩

/-- Witness for claim C4 at a concrete arena: `arenaABC` satisfies the
invariants and removing the handle `(uid 1, idx 0)` at position 0 (not the
last position) behaves as claimed. -/
theorem claimC4_swap_remove_correct_witness :
    WF arenaABC ∧ index_of arenaABC ⟨1, 0⟩ = some 0 ∧
    (∃ v a', remove arenaABC ⟨1, 0⟩ = some (some v, a') ∧
      arenaABC.values[0]? = some v ∧
      a'.values.length + 1 = arenaABC.values.length ∧
      (0 + 1 < arenaABC.values.length →
        a'.values[0]? = arenaABC.values[arenaABC.values.length - 1]? ∧
        (∀ q, q < a'.values.length → q ≠ 0 → a'.values[q]? = arenaABC.values[q]?) ∧
        ∃ ls, ownerOf arenaABC (arenaABC.values.length - 1) = some ls ∧
          fwdPtr a' ls = some 0 ∧
          uidsAt a'.slots ls = uidsAt arenaABC.slots ls ∧
          ownerOf a' 0 = some ls) ∧
      (0 + 1 = arenaABC.values.length → a'.values = arenaABC.values.dropLast)) :=
  ⟨by decide, by decide, claimC4_swap_remove_correct (by decide) (by decide)⟩

/-- Claim C1 (handle stability, refuted by evaluation): running
`insert 10; insert 20; insert 30`, then `remove` of handle a = (uid 1,
slot 0), then `swap 0 1` twice, makes the live handle b = (uid 2, slot 1)
resolve to 30 — the value inserted for handle c — although b's insertion
placed 20 and b was never removed.  The cause is `Arena::swap` writing the
two back-pointers at indices `slot_i`/`slot_j` instead of positions
`i`/`j`. -/
theorem claimC1_swap_misdirects_live_handle :
    runOps (new Nat) [Op.insert 10, Op.insert 20, Op.insert 30] = some arenaABC ∧
    get arenaABC ⟨2, 1⟩ = some (some 20) ∧
    runOps arenaABC [Op.remove ⟨1, 0⟩, Op.swap 0 1, Op.swap 0 1] = some arenaC1 ∧
    get arenaC1 ⟨2, 1⟩ = some (some 30) := by
  refine ⟨by decide, by decide, by decide, by decide⟩

/-- Claim C3 (free-list soundness, refuted by evaluation): removing the only
value (whose position is the last position) frees its slot inside `remove`
and then a second time inside the delegated `pop`, leaving the free list as
a self-loop: one free slot, but traversal from the head visits slot 0 over
and over instead of exactly once.  A subsequent insertion then reuses slot 0
while the head still points at it, and the next insertion hits the
`unreachable!()` panic. -/
theorem claimC3_remove_last_double_frees_slot :
    insert (new Nat) 5 = some (⟨1, 0⟩, arenaOne) ∧
    remove arenaOne ⟨1, 0⟩ = some (some 5, arenaOneRemoved) ∧
    free_slot_count arenaOneRemoved = 1 ∧
    freeChain arenaOneRemoved.slots 3 arenaOneRemoved.first_free = [0, 0, 0] ∧
    insert arenaOneRemoved 7 = some (⟨2, 0⟩, arenaReused) ∧
    insert arenaReused 8 = none := by
  refine ⟨by decide, by decide, by decide, by decide, by decide, by decide⟩

/-- Claim C5 (handles-only iteration, refuted by evaluation): after
`insert 10; insert 20; insert 30; remove (uid 1, idx 0)` the arena holds two
live values, and `id_at` resolves both positions, but the `ids()` iterator
yields no handle at all: `Ids::next` reads the slot at index `k` directly
instead of dereferencing the back-pointer `slots[k].value_slot`, and returns
`None` — ending iteration — at the first free slot among the first `len()`
slot indices. -/
theorem claimC5_ids_stops_at_first_free_slot :
    runOps (new Nat) [Op.insert 10, Op.insert 20, Op.insert 30, Op.remove ⟨1, 0⟩]
        = some arenaR1 ∧
    len arenaR1 = 2 ∧
    id_at arenaR1 0 = some (some ⟨3, 2⟩) ∧
    id_at arenaR1 1 = some (some ⟨2, 1⟩) ∧
    idsList arenaR1 = [] := by
  refine ⟨by decide, by decide, by decide, by decide, by decide⟩

/-- Claim C6 (two-handle accessor, refuted by evaluation): on the arena
`[10, 20, 30]` with slot k owning position k, calling `get2_mut` with the
handle at position 2 first and the handle at position 1 second panics (the
`else` branch indexes `upper[b]` = position 3, out of bounds); with the
handle at position 2 first and position 0 second it returns the two values
in the wrong order (10 then 30 instead of 30 then 10). -/
theorem claimC6_get2_mut_wrong_on_descending_positions :
    index_of arenaABC ⟨3, 2⟩ = some 2 ∧
    index_of arenaABC ⟨2, 1⟩ = some 1 ∧
    index_of arenaABC ⟨1, 0⟩ = some 0 ∧
    get2_mut arenaABC ⟨3, 2⟩ ⟨2, 1⟩ = none ∧
    get2_mut arenaABC ⟨3, 2⟩ ⟨1, 0⟩ = some (some 10, some 30) ∧
    get2_mut arenaABC ⟨1, 0⟩ ⟨2, 1⟩ = some (some 10, some 20) := by
  refine ⟨by decide, by decide, by decide, by decide, by decide, by decide⟩

/-- Claim C7 (sort non-invalidation, refuted by evaluation): from the
reachable arena `arenaQ1` (insert three values, remove the first, sort
ascending), where handle (uid 2, slot 1) resolves to 20 and (uid 3, slot 2)
to 30, a single `sort_by` with the reversed comparator leaves `as_slice()`
correctly reverse-sorted but makes both handles resolve to the other value:
the swaps inside quicksort go through the buggy position-swap bookkeeping,
which reads and writes back-pointers at the wrong indices. -/
theorem claimC7_sort_by_misdirects_live_handles :
    runOps (new Nat) [Op.insert 10, Op.insert 20, Op.insert 30, Op.remove ⟨1, 0⟩,
        Op.sortBy compare] = some arenaQ1 ∧
    get arenaQ1 ⟨2, 1⟩ = some (some 20) ∧
    get arenaQ1 ⟨3, 2⟩ = some (some 30) ∧
    sort_by arenaQ1 (fun x y => compare y x) = some arenaQ2 ∧
    as_slice arenaQ2 = [30, 20] ∧
    get arenaQ2 ⟨2, 1⟩ = some (some 30) ∧
    get arenaQ2 ⟨3, 2⟩ = some (some 20) := by
  refine ⟨by decide, by decide, by decide, by decide, by decide, by decide, by decide⟩

/-- Claim C8 (soft-failure atomicity, refuted by evaluation): after
`insert 5; clear_all`, the issued handle (uid 1, idx 0) is invalid; `get`,
`contains` and `index_of` fail softly, but `remove` with the same handle
panics (index out of bounds on `self.slots[id.idx]`) instead of returning
the not-found result, because `remove` uses a direct index where `get` uses
the checked `slots.get`. -/
theorem claimC8_remove_panics_on_out_of_range_handle :
    insert (new Nat) 5 = some (⟨1, 0⟩, arenaOne) ∧
    clear_all arenaOne = some arenaCleared ∧
    get arenaCleared ⟨1, 0⟩ = some none ∧
    contains arenaCleared ⟨1, 0⟩ = some false ∧
    index_of arenaCleared ⟨1, 0⟩ = none ∧
    remove arenaCleared ⟨1, 0⟩ = none := by
  refine ⟨by decide, by decide, by decide, by decide, by decide, by decide⟩

/-- Claim C9 (persisted-format round-trip, refuted by evaluation): the arena
reached by `insert 10; insert 20; remove (uid 1, idx 0)` has a freed slot 0
below its single occupied slot 1; it serializes to
`(next_uid 3, [(uid 2, idx 1, 20)])`, but deserializing that form panics
(`de.entries[next_value_slot]` is indexed past the end of the entry list
while filling the gap) instead of reconstructing the arena. -/
theorem claimC9_deserialize_panics_on_slot_gap :
    runOps (new Nat) [Op.insert 10, Op.insert 20, Op.remove ⟨1, 0⟩] = some arenaGap ∧
    serialize arenaGap = some { next_uid := 3, entries := [⟨2, 1, 20⟩] } ∧
    deserialize ({ next_uid := 3, entries := [⟨2, 1, 20⟩] } : SerArena Nat) = none := by
  refine ⟨by decide, by decide, by decide⟩

/-- Claim C10 (handle duplication, refuted by evaluation): with the `uuid`
feature active, `Clone for ArenaId` fills the discriminator with a freshly
generated random value instead of copying it.  For a handle with
discriminator 0 and any fresh draw different from 0 (as a random 128-bit
value is, except with probability 2^-128), the clone differs from the
original and fails the `match_id` validation of the arena that issued it;
only the coincidental draw equal to the original reproduces the handle. -/
theorem claimC10_clone_regenerates_discriminator :
    cloneU ⟨0, 1, 0⟩ 1 ≠ ⟨0, 1, 0⟩ ∧
    match_idU 0 ⟨0, 1, 0⟩ = true ∧
    match_idU 0 (cloneU ⟨0, 1, 0⟩ 1) = false ∧
    (∀ fresh, fresh ≠ 0 → cloneU ⟨0, 1, 0⟩ fresh ≠ ⟨0, 1, 0⟩) := by
  refine ⟨by decide, by decide, by decide, ?_⟩
  intro fresh hf hc
  exact hf (congrArg ArenaIdU.uuid hc)

end ArenaModel
